import Mathlib

/-!
Verification of the date-expression resolver in `dateparse/dateparse.go`
(package `dateparse` of the calvin repository).

Calendar dates are day-granularity, so we embed `time.Time` values that have
been truncated to day granularity as integer day numbers in the proleptic
Gregorian calendar.  Day `0` is January 1 of year 1, which is Go's zero
`time.Time` (a Monday); adding `24 * time.Hour` or `AddDate(0, 0, 1)` to a
truncated time is `+ 1` on day numbers.
-/

namespace Calvin

/-- The day number of Go's zero `time.Time` (January 1, year 1).  A calendar
date is a day number: an `Int`, with day 0 = 0001-01-01. -/
def zeroDate : Int := 0

/-- Go's weekday index of a date (`time.Time.Weekday`): Sunday = 0 ..
Saturday = 6.  Day 0 (0001-01-01) is a Monday, hence the `+ 1`. -/
def goWeekday (d : Int) : Int := (d + 1) % 7

/-- `time.Weekday.String()` on a Go weekday index. -/
def weekdayName (i : Int) : String :=
  if i = 0 then "Sunday"
  else if i = 1 then "Monday"
  else if i = 2 then "Tuesday"
  else if i = 3 then "Wednesday"
  else if i = 4 then "Thursday"
  else if i = 5 then "Friday"
  else "Saturday"

/-- `strings.ToLower`.  The Go function lowercases full Unicode; every string
the resolver compares after lowercasing is matched against pure-ASCII keyword
strings, and this embedding models the ASCII case mapping. -/
def toLowerAscii (s : String) : String := String.mk (s.data.map Char.toLower)

/-- The seven lowercased English weekday names, in Go index order. -/
def weekdayNamesLower : List String :=
  ["sunday", "monday", "tuesday", "wednesday", "thursday", "friday", "saturday"]

/-- `ParseResult` from `dateparse.go`: fields `Date`, `IsWeek`, `WeekDays`. -/
structure ParseResult where
  date : Int
  isWeek : Bool
  weekDays : List Int
  deriving Repr, DecidableEq

/-- The zero value `ParseResult` of Go type `ParseResult`. -/
def zeroParseResult : ParseResult :=
  { date := zeroDate, isWeek := false, weekDays := [] }

/-- A call's observable outcome: the returned `(ParseResult, error)` pair plus
the diagnostics written with `log.Printf` during the call. -/
structure Output where
  result : ParseResult
  err : Option String
  logs : List String
  deriving Repr, DecidableEq

/-- `getWeekDays` from `dateparse.go`: the 7 days, Monday first, of the week
containing `startDate + offset` days. -/
def getWeekDays (startDate : Int) (offset : Int) : List Int :=
  let s := startDate + offset
  let daysUntilMonday0 := 1 - goWeekday s
  let daysUntilMonday :=
    if daysUntilMonday0 > 0 then daysUntilMonday0 - 7 else daysUntilMonday0
  let monday := s + daysUntilMonday
  (List.range 7).map (fun i => monday + (i : Int))

/-- The `for i := 0; i < 7; i++` weekday scan inside the `"next"` branch of
`Parse`: starting at `d`, return the first of the next `n` days whose
lowercased Go weekday name equals `w`, else `none`. -/
def scanWeekday : Nat → Int → String → Option Int
  | 0, _, _ => none
  | n + 1, d, w =>
    if toLowerAscii (weekdayName (goWeekday d)) = w then some d
    else scanWeekday n (d + 1) w

/-- Whether `y` is a Gregorian leap year (mirrors Go's `isLeap`). -/
def isLeap (y : Nat) : Bool := y % 4 = 0 && (y % 100 ≠ 0 || y % 400 = 0)

/-- Days in month `m` of year `y` (mirrors Go's `daysIn`). -/
def daysIn (y m : Nat) : Nat :=
  if m = 2 then (if isLeap y then 29 else 28)
  else if m = 4 ∨ m = 6 ∨ m = 9 ∨ m = 11 then 30
  else 31

/-- Days from 0001-01-01 to `y`-01-01 in the proleptic Gregorian calendar
(`y = 0` is allowed and is a leap year). -/
def daysBeforeYear (y : Nat) : Int :=
  365 * ((y : Int) - 1) + Int.fdiv ((y : Int) - 1) 4
    - Int.fdiv ((y : Int) - 1) 100 + Int.fdiv ((y : Int) - 1) 400

/-- Days from `y`-01-01 to `y`-`m`-01. -/
def daysBeforeMonth (y m : Nat) : Nat :=
  (List.range (m - 1)).foldl (fun a i => a + daysIn y (i + 1)) 0

/-- The day number of the calendar date `y`-`m`-`d`. -/
def toDayNumber (y m d : Nat) : Int :=
  daysBeforeYear y + (daysBeforeMonth y m : Int) + ((d : Int) - 1)

/-- ASCII decimal digit test. -/
def isDigit (c : Char) : Bool := '0' ≤ c && c ≤ '9'

/-- Numeric value of a list of decimal digits. -/
def digitsToNat (l : List Char) : Nat :=
  l.foldl (fun a c => 10 * a + (c.toNat - '0'.toNat)) 0

/-- `time.Parse("2006-01-02", s)`, as used by `Parse`'s default branch:
exactly four year digits, two month digits, two day digits, literal dashes,
no trailing text; Go rejects a month outside 1..12 ("month out of range")
and a day outside the month's length ("day out of range"). -/
def parseISODate (s : String) : Option Int :=
  match s.toList with
  | [y1, y2, y3, y4, '-', m1, m2, '-', d1, d2] =>
    if ([y1, y2, y3, y4, m1, m2, d1, d2].all isDigit) then
      let y := digitsToNat [y1, y2, y3, y4]
      let m := digitsToNat [m1, m2]
      let d := digitsToNat [d1, d2]
      if 1 ≤ m ∧ m ≤ 12 ∧ 1 ≤ d ∧ d ≤ daysIn y m then
        some (toDayNumber y m d)
      else none
    else none
  | _ => none

/-- The diagnostic `log.Printf("Warning: could not parse date %q, using
today", args[1])` emits. -/
def warnMsg (tok : String) : String :=
  "Warning: could not parse date \"" ++ tok ++ "\", using today"

/-- `(*DefaultParser).Parse` from `dateparse.go`, given the day-truncated
date `now` returned by the parser's `NowDate` provider. -/
def Parse (now : Int) (args : List String) : Output :=
  let result : ParseResult := { date := now, isWeek := false, weekDays := [] }
  match args with
  | [] => ⟨result, none, []⟩
  | [_] => ⟨result, none, []⟩
  | _ :: a1 :: rest =>
    if a1 = "" ∨ a1 = "today" then ⟨result, none, []⟩
    else if a1 = "tomorrow" then ⟨{ result with date := now + 1 }, none, []⟩
    else if a1 = "yesterday" then ⟨{ result with date := now - 1 }, none, []⟩
    else if a1 = "week" then
      ⟨{ result with isWeek := true, weekDays := getWeekDays now 0 }, none, []⟩
    else if a1 = "next" then
      match rest with
      | [] => ⟨zeroParseResult, some "missing day of week or 'week'", []⟩
      | a2 :: _ =>
        if toLowerAscii a2 = "week" then
          ⟨{ result with isWeek := true, weekDays := getWeekDays now 7 }, none, []⟩
        else
          match scanWeekday 7 now (toLowerAscii a2) with
          | some d => ⟨{ result with date := d }, none, []⟩
          | none =>
            ⟨zeroParseResult, some ("invalid day of week: " ++ a2), []⟩
    else
      match parseISODate a1 with
      | some d => ⟨{ result with date := d }, none, []⟩
      | none => ⟨result, none, [warnMsg a1]⟩

/-- A `DefaultParser` call through its injectable `NowDate` provider. -/
def ParseWithProvider (nowDate : Unit → Int) (args : List String) : Output :=
  Parse (nowDate ()) args

/-- The error contract stated by the spec, to be compared with `Parse`:
an error happens exactly when token 1 is `"next"` and token 2 is missing
(message "missing day of week or 'week'") or lowercases to neither `"week"`
nor a weekday name (message "invalid day of week: <token 2>"). -/
def specErrorContract (args : List String) : Option String :=
  match args with
  | _ :: a1 :: rest =>
    if a1 = "next" then
      match rest with
      | [] => some "missing day of week or 'week'"
      | a2 :: _ =>
        if toLowerAscii a2 = "week" ∨ toLowerAscii a2 ∈ weekdayNamesLower then none
        else some ("invalid day of week: " ++ a2)
    else none
  | _ => none

/-- The result-shape rule as the spec words it, to be compared with `Parse`:
per successful resolution exactly one of the two shapes is populated —
either the single date is populated (not the zero date) with week mode
unset and no week sequence, or week mode is set with a 7-day sequence and
the date field left unpopulated (the zero date). -/
def specExclusiveShapes (r : ParseResult) : Prop :=
  (r.date ≠ zeroDate ∧ r.isWeek = false ∧ r.weekDays = []) ∨
  (r.isWeek = true ∧ r.weekDays.length = 7 ∧ r.date = zeroDate)

lemma goWeekday_nonneg (d : Int) : 0 ≤ goWeekday d := by
  unfold goWeekday; omega

lemma goWeekday_lt (d : Int) : goWeekday d < 7 := by
  unfold goWeekday; omega

lemma weekdayName_mem (i : Int) (h0 : 0 ≤ i) (h7 : i < 7) :
    toLowerAscii (weekdayName i) ∈ weekdayNamesLower := by
  interval_cases i <;> decide

lemma mem_weekdayNames_ne_week {s : String} (h : s ∈ weekdayNamesLower) :
    s ≠ "week" := by
  fin_cases h <;> decide

/-- If day `d + k` is the first day at or after `d` whose lowercased weekday
name is `w`, and `k` is within the scan window, the scan returns `d + k`. -/
lemma scanWeekday_found (w : String) (n : Nat) :
    ∀ (d : Int) (k : Nat), k < n →
      toLowerAscii (weekdayName (goWeekday (d + k))) = w →
      (∀ j : Nat, j < k → toLowerAscii (weekdayName (goWeekday (d + j))) ≠ w) →
      scanWeekday n d w = some (d + k) := by
  induction n with
  | zero => intro d k hk _ _; omega
  | succ n ih =>
    intro d k hk hmatch hmin
    unfold scanWeekday
    rcases Nat.eq_zero_or_pos k with hk0 | hkpos
    · subst hk0
      simp only [Nat.cast_zero, add_zero] at hmatch ⊢
      rw [if_pos hmatch]
    · have hne : ¬ toLowerAscii (weekdayName (goWeekday d)) = w := by
        have h0 := hmin 0 hkpos
        simpa using h0
      rw [if_neg hne]
      have key : (d + 1) + ((k - 1 : Nat) : Int) = d + (k : Int) := by omega
      have hmatch' :
          toLowerAscii (weekdayName (goWeekday ((d + 1) + ((k - 1 : Nat) : Int)))) = w := by
        rw [key]; exact hmatch
      have hmin' : ∀ j : Nat, j < k - 1 →
          toLowerAscii (weekdayName (goWeekday ((d + 1) + (j : Int)))) ≠ w := by
        intro j hj
        have h3 : (d + 1) + (j : Int) = d + ((j + 1 : Nat) : Int) := by push_cast; ring
        rw [h3]; exact hmin (j + 1) (by omega)
      have := ih (d + 1) (k - 1) (by omega) hmatch' hmin'
      rw [this, key]

/-- A successful scan can only happen on a lowercased weekday name. -/
lemma scanWeekday_some_mem (w : String) (n : Nat) :
    ∀ (d x : Int), scanWeekday n d w = some x → w ∈ weekdayNamesLower := by
  induction n with
  | zero => intro d x h; simp [scanWeekday] at h
  | succ n ih =>
    intro d x h
    unfold scanWeekday at h
    by_cases hc : toLowerAscii (weekdayName (goWeekday d)) = w
    · rw [← hc]; exact weekdayName_mem _ (goWeekday_nonneg d) (goWeekday_lt d)
    · rw [if_neg hc] at h; exact ih (d + 1) x h

/-- Within any 7 consecutive days there is a day with the given weekday name. -/
lemma exists_scan_match {w : String} (hw : w ∈ weekdayNamesLower) (d : Int) :
    ∃ k : Nat, k < 7 ∧ toLowerAscii (weekdayName (goWeekday (d + k))) = w := by
  have hidx : ∃ t : Int, 0 ≤ t ∧ t < 7 ∧ toLowerAscii (weekdayName t) = w := by
    fin_cases hw
    · exact ⟨0, by decide⟩
    · exact ⟨1, by decide⟩
    · exact ⟨2, by decide⟩
    · exact ⟨3, by decide⟩
    · exact ⟨4, by decide⟩
    · exact ⟨5, by decide⟩
    · exact ⟨6, by decide⟩
  obtain ⟨t, ht0, ht7, htw⟩ := hidx
  refine ⟨((t - (d + 1)) % 7).toNat, by omega, ?_⟩
  have hg : goWeekday (d + (((t - (d + 1)) % 7).toNat : Int)) = t := by
    unfold goWeekday; omega
  rw [hg, htw]

/-- The full scan on a valid lowercased weekday name returns the first
matching day in the window `d, d+1, ..., d+6`. -/
lemma scanWeekday_first {w : String} (hw : w ∈ weekdayNamesLower) (d : Int) :
    ∃ k : Nat, k < 7 ∧ scanWeekday 7 d w = some (d + k) ∧
      toLowerAscii (weekdayName (goWeekday (d + k))) = w ∧
      ∀ j : Nat, j < k → toLowerAscii (weekdayName (goWeekday (d + j))) ≠ w := by
  obtain ⟨k0, hk0, hm0⟩ := exists_scan_match hw d
  have hex : ∃ k : Nat, toLowerAscii (weekdayName (goWeekday (d + k))) = w := ⟨k0, hm0⟩
  have hk : toLowerAscii (weekdayName (goWeekday (d + (Nat.find hex : Nat)))) = w :=
    Nat.find_spec hex
  have hkmin : ∀ j : Nat, j < Nat.find hex →
      toLowerAscii (weekdayName (goWeekday (d + j))) ≠ w :=
    fun j hj => Nat.find_min hex hj
  have hk7 : Nat.find hex < 7 := lt_of_le_of_lt (Nat.find_le hm0) hk0
  exact ⟨Nat.find hex, hk7, scanWeekday_found w 7 d _ (by omega) hk hkmin, hk, hkmin⟩

/-- `getWeekDays` returns 7 consecutive days, starting at the Monday on or
before `startDate + offset`. -/
lemma getWeekDays_eq (s off : Int) :
    ∃ m : Int, getWeekDays s off = [m, m+1, m+2, m+3, m+4, m+5, m+6] ∧
      goWeekday m = 1 ∧ m ≤ s + off ∧ s + off ≤ m + 6 := by
  refine ⟨(s + off) +
      (if 1 - goWeekday (s + off) > 0 then 1 - goWeekday (s + off) - 7
       else 1 - goWeekday (s + off)), ?_, ?_, ?_, ?_⟩
  · unfold getWeekDays
    rw [show List.range 7 = [0, 1, 2, 3, 4, 5, 6] from rfl]
    simp only [List.map]
    norm_num
  · unfold goWeekday
    split <;> omega
  · unfold goWeekday
    split <;> omega
  · unfold goWeekday
    split <;> omega

lemma getWeekDays_length (s off : Int) : (getWeekDays s off).length = 7 := by
  obtain ⟨m, hm, -, -, -⟩ := getWeekDays_eq s off
  rw [hm]
  rfl

lemma Parse_nil (now : Int) : Parse now [] = ⟨⟨now, false, []⟩, none, []⟩ := rfl

lemma Parse_one (now : Int) (u : String) :
    Parse now [u] = ⟨⟨now, false, []⟩, none, []⟩ := rfl

lemma Parse_week_cons (now : Int) (u : String) (t : List String) :
    Parse now (u :: "week" :: t) =
      ⟨⟨now, true, getWeekDays now 0⟩, none, []⟩ := rfl

lemma Parse_next_nil (now : Int) (u : String) :
    Parse now [u, "next"] =
      ⟨zeroParseResult, some "missing day of week or 'week'", []⟩ := rfl

lemma Parse_next_cons (now : Int) (u a2 : String) (t : List String) :
    Parse now (u :: "next" :: a2 :: t) =
      if toLowerAscii a2 = "week" then
        ⟨⟨now, true, getWeekDays now 7⟩, none, []⟩
      else
        match scanWeekday 7 now (toLowerAscii a2) with
        | some d => ⟨⟨d, false, []⟩, none, []⟩
        | none => ⟨zeroParseResult, some ("invalid day of week: " ++ a2), []⟩ :=
  rfl

lemma Parse_cons_cons (now : Int) (u a1 : String) (t : List String) :
    Parse now (u :: a1 :: t) =
      if a1 = "" ∨ a1 = "today" then ⟨⟨now, false, []⟩, none, []⟩
      else if a1 = "tomorrow" then ⟨⟨now + 1, false, []⟩, none, []⟩
      else if a1 = "yesterday" then ⟨⟨now - 1, false, []⟩, none, []⟩
      else if a1 = "week" then ⟨⟨now, true, getWeekDays now 0⟩, none, []⟩
      else if a1 = "next" then
        match t with
        | [] => ⟨zeroParseResult, some "missing day of week or 'week'", []⟩
        | a2 :: _ =>
          if toLowerAscii a2 = "week" then
            ⟨⟨now, true, getWeekDays now 7⟩, none, []⟩
          else
            match scanWeekday 7 now (toLowerAscii a2) with
            | some d => ⟨⟨d, false, []⟩, none, []⟩
            | none =>
              ⟨zeroParseResult, some ("invalid day of week: " ++ a2), []⟩
      else
        match parseISODate a1 with
        | some d => ⟨⟨d, false, []⟩, none, []⟩
        | none => ⟨⟨now, false, []⟩, none, [warnMsg a1]⟩ := rfl

lemma Parse_default_cons (now : Int) (u a1 : String) (t : List String)
    (h0 : a1 ≠ "") (h1 : a1 ≠ "today") (h2 : a1 ≠ "tomorrow")
    (h3 : a1 ≠ "yesterday") (h4 : a1 ≠ "week") (h5 : a1 ≠ "next") :
    Parse now (u :: a1 :: t) =
      match parseISODate a1 with
      | some d => ⟨⟨d, false, []⟩, none, []⟩
      | none => ⟨⟨now, false, []⟩, none, [warnMsg a1]⟩ := by
  rw [Parse_cons_cons,
    if_neg (not_or.mpr ⟨h0, h1⟩), if_neg h2, if_neg h3, if_neg h4, if_neg h5]

/-- Every `Parse` call returns one of five result shapes. -/
lemma Parse_shape (now : Int) (args : List String) :
    (∃ d, Parse now args = ⟨⟨d, false, []⟩, none, []⟩) ∨
    (∃ a1, Parse now args = ⟨⟨now, false, []⟩, none, [warnMsg a1]⟩) ∨
    Parse now args = ⟨⟨now, true, getWeekDays now 0⟩, none, []⟩ ∨
    Parse now args = ⟨⟨now, true, getWeekDays now 7⟩, none, []⟩ ∨
    (∃ msg, Parse now args = ⟨zeroParseResult, some msg, []⟩) := by
  rcases args with _ | ⟨u, _ | ⟨a1, rest⟩⟩
  · exact Or.inl ⟨now, Parse_nil now⟩
  · exact Or.inl ⟨now, Parse_one now u⟩
  · by_cases h0 : a1 = ""
    · subst h0; exact Or.inl ⟨now, rfl⟩
    by_cases h1 : a1 = "today"
    · subst h1; exact Or.inl ⟨now, rfl⟩
    by_cases h2 : a1 = "tomorrow"
    · subst h2; exact Or.inl ⟨now + 1, rfl⟩
    by_cases h3 : a1 = "yesterday"
    · subst h3; exact Or.inl ⟨now - 1, rfl⟩
    by_cases h4 : a1 = "week"
    · subst h4; exact Or.inr (Or.inr (Or.inl rfl))
    by_cases h5 : a1 = "next"
    · subst h5
      rcases rest with _ | ⟨a2, t⟩
      · exact Or.inr (Or.inr (Or.inr (Or.inr
          ⟨"missing day of week or 'week'", rfl⟩)))
      · by_cases hw : toLowerAscii a2 = "week"
        · refine Or.inr (Or.inr (Or.inr (Or.inl ?_)))
          rw [Parse_next_cons, if_pos hw]
        · rcases hscan : scanWeekday 7 now (toLowerAscii a2) with _ | d
          · refine Or.inr (Or.inr (Or.inr (Or.inr
              ⟨"invalid day of week: " ++ a2, ?_⟩)))
            rw [Parse_next_cons, if_neg hw, hscan]
          · refine Or.inl ⟨d, ?_⟩
            rw [Parse_next_cons, if_neg hw, hscan]
    · rcases hp : parseISODate a1 with _ | d
      · refine Or.inr (Or.inl ⟨a1, ?_⟩)
        rw [Parse_default_cons now u a1 rest h0 h1 h2 h3 h4 h5, hp]
      · refine Or.inl ⟨d, ?_⟩
        rw [Parse_default_cons now u a1 rest h0 h1 h2 h3 h4 h5, hp]

/-- C1: for every `now` and every valid weekday name `w` (case-insensitive
full English name), `Parse` on tokens `[_, "next", w]` returns as a single
date the first date among `now, now+1, ..., now+6` whose weekday name
(case-insensitively) equals `w`; in particular, when `now` itself has
weekday `w`, `Parse` returns `now` itself. -/
theorem claim1_next_weekday_first_match (now : Int) (u w : String)
    (hw : toLowerAscii w ∈ weekdayNamesLower) :
    (∃ k : Nat, k < 7 ∧
      Parse now [u, "next", w] = ⟨⟨now + (k : Int), false, []⟩, none, []⟩ ∧
      toLowerAscii (weekdayName (goWeekday (now + (k : Int)))) = toLowerAscii w ∧
      (∀ j : Nat, j < k →
        toLowerAscii (weekdayName (goWeekday (now + (j : Int)))) ≠ toLowerAscii w)) ∧
    (toLowerAscii (weekdayName (goWeekday now)) = toLowerAscii w →
      Parse now [u, "next", w] = ⟨⟨now, false, []⟩, none, []⟩) := by
  have hne : toLowerAscii w ≠ "week" := mem_weekdayNames_ne_week hw
  obtain ⟨k, hk7, hscan, hmatch, hmin⟩ := scanWeekday_first hw now
  constructor
  · refine ⟨k, hk7, ?_, hmatch, hmin⟩
    rw [Parse_next_cons, if_neg hne, hscan]
  · intro hnow
    have h0 : scanWeekday 7 now (toLowerAscii w) = some (now + ((0 : Nat) : Int)) :=
      scanWeekday_found (toLowerAscii w) 7 now 0 (by omega)
        (by simpa using hnow) (by intro j hj; exact absurd hj (by omega))
    rw [Parse_next_cons, if_neg hne, h0]
    norm_num

/-- Witness for C1: `now = 0` is a Monday, so `[_, "next", "Monday"]`
resolves to `now` itself. -/
theorem claim1_witness :
    toLowerAscii "Monday" ∈ weekdayNamesLower ∧
    ((∃ k : Nat, k < 7 ∧
      Parse 0 ["x", "next", "Monday"] = ⟨⟨0 + (k : Int), false, []⟩, none, []⟩ ∧
      toLowerAscii (weekdayName (goWeekday (0 + (k : Int)))) = toLowerAscii "Monday" ∧
      (∀ j : Nat, j < k →
        toLowerAscii (weekdayName (goWeekday (0 + (j : Int)))) ≠ toLowerAscii "Monday")) ∧
    (toLowerAscii (weekdayName (goWeekday 0)) = toLowerAscii "Monday" →
      Parse 0 ["x", "next", "Monday"] = ⟨⟨0, false, []⟩, none, []⟩)) :=
  ⟨by decide, claim1_next_weekday_first_match 0 "x" "Monday" (by decide)⟩

/-- C2: `Parse` returns an error exactly when token 1 is `"next"` and token
2 is missing (message "missing day of week or 'week'") or lowercases to
neither `"week"` nor a weekday name (message "invalid day of week:
<token 2>"); every other token sequence succeeds. -/
theorem claim2_error_characterization (now : Int) (args : List String) :
    (Parse now args).err = specErrorContract args := by
  rcases args with _ | ⟨u, _ | ⟨a1, rest⟩⟩
  · rfl
  · rfl
  · by_cases h5 : a1 = "next"
    · subst h5
      rcases rest with _ | ⟨a2, t⟩
      · rfl
      · show (Parse now (u :: "next" :: a2 :: t)).err =
          if toLowerAscii a2 = "week" ∨ toLowerAscii a2 ∈ weekdayNamesLower then none
          else some ("invalid day of week: " ++ a2)
        rw [Parse_next_cons]
        by_cases hw : toLowerAscii a2 = "week"
        · rw [if_pos hw, if_pos (Or.inl hw)]
        · rw [if_neg hw]
          rcases hscan : scanWeekday 7 now (toLowerAscii a2) with _ | d
          · have hmem : toLowerAscii a2 ∉ weekdayNamesLower := by
              intro hm
              obtain ⟨k, -, hs, -, -⟩ := scanWeekday_first hm now
              rw [hscan] at hs
              exact Option.noConfusion hs
            rw [if_neg (by simp [hw, hmem])]
          · have hmem : toLowerAscii a2 ∈ weekdayNamesLower :=
              scanWeekday_some_mem (toLowerAscii a2) 7 now d hscan
            rw [if_pos (Or.inr hmem)]
    · by_cases h0 : a1 = ""
      · subst h0; rfl
      by_cases h1 : a1 = "today"
      · subst h1; rfl
      by_cases h2 : a1 = "tomorrow"
      · subst h2; rfl
      by_cases h3 : a1 = "yesterday"
      · subst h3; rfl
      by_cases h4 : a1 = "week"
      · subst h4; rfl
      · have hrhs : specErrorContract (u :: a1 :: rest) = none := if_neg h5
        rw [Parse_default_cons now u a1 rest h0 h1 h2 h3 h4 h5, hrhs]
        rcases parseISODate a1 with _ | d <;> rfl

/-- C3: every successful resolution with week mode set carries a `WeekDays`
sequence of exactly 7 dates, each one day after its predecessor, whose
first element's weekday is Monday (Go index 1). -/
theorem claim3_week_mode_invariant (now : Int) (args : List String)
    (hok : (Parse now args).err = none)
    (hweek : (Parse now args).result.isWeek = true) :
    ∃ m : Int,
      (Parse now args).result.weekDays = [m, m+1, m+2, m+3, m+4, m+5, m+6] ∧
      goWeekday m = 1 := by
  rcases Parse_shape now args with ⟨d, hd⟩ | ⟨a1, ha⟩ | h | h | ⟨msg, hmsg⟩
  · rw [hd] at hweek; exact absurd hweek (by simp)
  · rw [ha] at hweek; exact absurd hweek (by simp)
  · obtain ⟨m, hm, hmon, -, -⟩ := getWeekDays_eq now 0
    rw [h]
    exact ⟨m, hm, hmon⟩
  · obtain ⟨m, hm, hmon, -, -⟩ := getWeekDays_eq now 7
    rw [h]
    exact ⟨m, hm, hmon⟩
  · rw [hmsg] at hok; simp at hok

/-- Witness for C3 at `now = 10` and tokens `["x", "week"]`. -/
theorem claim3_witness :
    ∃ m : Int,
      (Parse 10 ["x", "week"]).result.weekDays = [m, m+1, m+2, m+3, m+4, m+5, m+6] ∧
      goWeekday m = 1 :=
  claim3_week_mode_invariant 10 ["x", "week"] rfl rfl

/-- C4: for every `now`, the week returned for `[_, "next", "week"]` starts
exactly 7 days after the week returned for `[_, "week"]`: its Monday is
strictly after the current week's Sunday and the two ranges are disjoint. -/
theorem claim4_next_week_disjoint (now : Int) (u v : String) :
    ∃ m : Int,
      (Parse now [u, "week"]).result.weekDays =
        [m, m+1, m+2, m+3, m+4, m+5, m+6] ∧
      (Parse now [v, "next", "week"]).result.weekDays =
        [m+7, m+8, m+9, m+10, m+11, m+12, m+13] ∧
      m + 7 > m + 6 ∧
      ∀ x : Int, x ∈ (Parse now [v, "next", "week"]).result.weekDays →
        x ∉ (Parse now [u, "week"]).result.weekDays := by
  obtain ⟨m, hm, hmon, hle, hge⟩ := getWeekDays_eq now 0
  obtain ⟨m', hm', hmon', hle', hge'⟩ := getWeekDays_eq now 7
  have hshift : m' = m + 7 := by
    unfold goWeekday at hmon hmon'
    omega
  subst hshift
  have hA : (Parse now [u, "week"]).result.weekDays =
      [m, m+1, m+2, m+3, m+4, m+5, m+6] := hm
  have hB : (Parse now [v, "next", "week"]).result.weekDays =
      [m+7, m+8, m+9, m+10, m+11, m+12, m+13] := by
    have hproj : (Parse now [v, "next", "week"]).result.weekDays =
        getWeekDays now 7 := rfl
    rw [hproj, hm']
    norm_num
    omega
  refine ⟨m, hA, hB, by omega, ?_⟩
  intro x hx hy
  rw [hB] at hx
  rw [hA] at hy
  simp only [List.mem_cons, List.not_mem_nil, or_false] at hx hy
  omega

/-- C5: for every `now`, `Parse` on `[_, "week"]` returns week mode with a
7-day sequence containing `now`: its Monday is on or before `now` and its
Sunday on or after `now`. -/
theorem claim5_week_contains_now (now : Int) (u : String) :
    (Parse now [u, "week"]).result.isWeek = true ∧
    ∃ m : Int,
      (Parse now [u, "week"]).result.weekDays =
        [m, m+1, m+2, m+3, m+4, m+5, m+6] ∧
      goWeekday m = 1 ∧ m ≤ now ∧ now ≤ m + 6 := by
  obtain ⟨m, hm, hmon, hle, hge⟩ := getWeekDays_eq now 0
  exact ⟨rfl, m, hm, hmon, by omega, by omega⟩

/-- C6: when token 1 is none of the recognized keywords, `Parse` returns
the literal `YYYY-MM-DD` date when token 1 parses, independent of `now`;
otherwise it still succeeds, returns `now`, and emits a diagnostic naming
the unparseable input. -/
theorem claim6_default_branch (now : Int) (u tok : String)
    (h0 : tok ≠ "") (h1 : tok ≠ "today") (h2 : tok ≠ "tomorrow")
    (h3 : tok ≠ "yesterday") (h4 : tok ≠ "week") (h5 : tok ≠ "next") :
    (∀ d : Int, parseISODate tok = some d →
      Parse now [u, tok] = ⟨⟨d, false, []⟩, none, []⟩) ∧
    (parseISODate tok = none →
      Parse now [u, tok] = ⟨⟨now, false, []⟩, none, [warnMsg tok]⟩) := by
  constructor
  · intro d hd
    rw [Parse_default_cons now u tok [] h0 h1 h2 h3 h4 h5, hd]
  · intro hn
    rw [Parse_default_cons now u tok [] h0 h1 h2 h3 h4 h5, hn]

/-- Witness for C6: `"2025-12-25"` parses to day number 739609 (which is
2025-12-25), and `Parse` returns it regardless of `now = 0`. -/
theorem claim6_witness :
    parseISODate "2025-12-25" = some 739609 ∧
    Parse 0 ["x", "2025-12-25"] = ⟨⟨739609, false, []⟩, none, []⟩ :=
  ⟨by decide,
    (claim6_default_branch 0 "x" "2025-12-25" (by decide) (by decide) (by decide)
      (by decide) (by decide) (by decide)).1 739609 (by decide)⟩

/-- C7: every token sequence of length at most 1 resolves to `now` as a
single date (week mode unset); `""` and `"today"` resolve to `now`,
`"tomorrow"` to `now + 1`, `"yesterday"` to `now - 1`. -/
theorem claim7_basic_tokens (now : Int) :
    (∀ args : List String, args.length ≤ 1 →
      Parse now args = ⟨⟨now, false, []⟩, none, []⟩) ∧
    ∀ u : String,
      Parse now [u, ""] = ⟨⟨now, false, []⟩, none, []⟩ ∧
      Parse now [u, "today"] = ⟨⟨now, false, []⟩, none, []⟩ ∧
      Parse now [u, "tomorrow"] = ⟨⟨now + 1, false, []⟩, none, []⟩ ∧
      Parse now [u, "yesterday"] = ⟨⟨now - 1, false, []⟩, none, []⟩ := by
  constructor
  · intro args hlen
    rcases args with _ | ⟨u, _ | ⟨a1, rest⟩⟩
    · rfl
    · rfl
    · simp only [List.length_cons] at hlen; omega
  · intro u
    exact ⟨rfl, rfl, rfl, rfl⟩

/-- Witness for C7 at `now = 5`. -/
theorem claim7_witness :
    Parse 5 [] = ⟨⟨5, false, []⟩, none, []⟩ ∧
    Parse 5 ["x", "tomorrow"] = ⟨⟨5 + 1, false, []⟩, none, []⟩ :=
  ⟨(claim7_basic_tokens 5).1 [] (by decide), ((claim7_basic_tokens 5).2 "x").2.2.1⟩

/-- C8 counterexample: on `now = 10` and tokens `["x", "week"]` the call
succeeds in week mode with a 7-day sequence, yet the `Date` field still
holds `now` — it is not left unpopulated (zero-valued), so the two result
shapes are not mutually exclusive in the claimed sense. -/
theorem claim8_counterexample :
    (Parse 10 ["x", "week"]).err = none ∧
    (Parse 10 ["x", "week"]).result.isWeek = true ∧
    (Parse 10 ["x", "week"]).result.date = 10 ∧
    ¬ specExclusiveShapes (Parse 10 ["x", "week"]).result := by
  refine ⟨rfl, rfl, rfl, ?_⟩
  unfold specExclusiveShapes
  decide

/-- C8 (amended): for every successful resolution the two shapes are
distinguished by the week flag — week mode set carries a week sequence of
exactly 7 dates, week mode unset carries an empty week sequence (the
`Date` field is not cleared in week mode; it keeps holding `now`). -/
theorem claim8_week_flag_shape (now : Int) (args : List String)
    (hok : (Parse now args).err = none) :
    ((Parse now args).result.isWeek = true →
      (Parse now args).result.weekDays.length = 7 ∧
      (Parse now args).result.date = now) ∧
    ((Parse now args).result.isWeek = false →
      (Parse now args).result.weekDays = []) := by
  rcases Parse_shape now args with ⟨d, hd⟩ | ⟨a1, ha⟩ | h | h | ⟨msg, hmsg⟩
  · rw [hd]
    exact ⟨fun h => by simp at h, fun _ => rfl⟩
  · rw [ha]
    exact ⟨fun h => by simp at h, fun _ => rfl⟩
  · rw [h]
    exact ⟨fun _ => ⟨getWeekDays_length now 0, rfl⟩, fun h => by simp at h⟩
  · rw [h]
    exact ⟨fun _ => ⟨getWeekDays_length now 7, rfl⟩, fun h => by simp at h⟩
  · rw [hmsg] at hok
    simp at hok

/-- Witness for the amended C8 at `now = 10` and tokens `["x", "week"]`. -/
theorem claim8_witness :
    ((Parse 10 ["x", "week"]).result.isWeek = true →
      (Parse 10 ["x", "week"]).result.weekDays.length = 7 ∧
      (Parse 10 ["x", "week"]).result.date = 10) ∧
    ((Parse 10 ["x", "week"]).result.isWeek = false →
      (Parse 10 ["x", "week"]).result.weekDays = []) :=
  claim8_week_flag_shape 10 ["x", "week"] rfl

/-- C9: resolution is deterministic in the provided date: two `NowDate`
providers that return the same date `d` produce identical outputs (same
date, same week flag, same week sequence, same error, same diagnostics),
independent of wall-clock time. -/
theorem claim9_deterministic (f g : Unit → Int) (args : List String) (d : Int)
    (hf : f () = d) (hg : g () = d) :
    ParseWithProvider f args = ParseWithProvider g args := by
  unfold ParseWithProvider
  rw [hf, hg]

/-- Witness for C9: two syntactically different providers returning 5. -/
theorem claim9_witness :
    ParseWithProvider (fun _ => 5) ["x", "next", "friday"] =
      ParseWithProvider (fun _ => 2 + 3) ["x", "next", "friday"] :=
  claim9_deterministic (fun _ => 5) (fun _ => 2 + 3) ["x", "next", "friday"] 5
    rfl (by decide)

/-- C10: on every error return, `Parse` returns the zero-value
`ParseResult`: zero date, week mode unset, empty week sequence — no
partial result accompanies an error. -/
theorem claim10_error_zero_result (now : Int) (args : List String)
    (he : (Parse now args).err ≠ none) :
    (Parse now args).result = zeroParseResult := by
  rcases Parse_shape now args with ⟨d, hd⟩ | ⟨a1, ha⟩ | h | h | ⟨msg, hmsg⟩
  · rw [hd] at he; exact absurd rfl he
  · rw [ha] at he; exact absurd rfl he
  · rw [h] at he; exact absurd rfl he
  · rw [h] at he; exact absurd rfl he
  · rw [hmsg]

/-- Witness for C10 at `now = 5` and tokens `["x", "next"]`. -/
theorem claim10_witness :
    (Parse 5 ["x", "next"]).err ≠ none ∧
    (Parse 5 ["x", "next"]).result = zeroParseResult :=
  ⟨by decide, claim10_error_zero_result 5 ["x", "next"] (by decide)⟩

end Calvin
